import Mathlib

/-!
Verification of the guitarzero scoring, timing, onset and pitch pipeline.

Each definition is a shallow embedding of the corresponding TypeScript
function, with JavaScript numbers modelled as rationals (`ℚ`), integers as
`ℕ`/`ℤ`, nullable values as `Option`, and `-Infinity` sentinels as `none`.
-/

namespace GuitarZero

/-- Score result categories (`ScoreResult` in `types/index.ts`). -/
inductive ScoreResult where
  | perfect
  | good
  | ok
  | miss
  deriving DecidableEq, Repr

/-- Points awarded for each result type (`POINTS_BY_RESULT` in `scoreCalculator.ts`). -/
def POINTS_BY_RESULT : ScoreResult → ℕ
  | .perfect => 100
  | .good => 75
  | .ok => 50
  | .miss => 0

/-- Streak multiplier thresholds (`STREAK_MULTIPLIERS` in `scoreCalculator.ts`). -/
def STREAK_MULTIPLIERS : List (ℕ × ℕ) := [(30, 4), (20, 3), (10, 2), (0, 1)]

/-- The for-loop body of `getStreakMultiplier`: first entry whose threshold is met. -/
def firstMultiplier (streak : ℕ) : List (ℕ × ℕ) → ℕ
  | [] => 1
  | entry :: rest => if streak ≥ entry.1 then entry.2 else firstMultiplier streak rest

/-- Embedding of `getStreakMultiplier` from `scoreCalculator.ts`. -/
def getStreakMultiplier (streak : ℕ) : ℕ := firstMultiplier streak STREAK_MULTIPLIERS

/-- Embedding of `getBasePoints` from `scoreCalculator.ts`. -/
def getBasePoints (result : ScoreResult) : ℕ := POINTS_BY_RESULT result

/-- Embedding of `calculatePoints` from `scoreCalculator.ts`. -/
def calculatePoints (result : ScoreResult) (streak : ℕ) : ℕ :=
  getBasePoints result * getStreakMultiplier streak

/-- Embedding of `updateStreak` from `scoreCalculator.ts`. -/
def updateStreak (currentStreak : ℕ) (result : ScoreResult) : ℕ :=
  if result = .miss then 0 else currentStreak + 1

/-- Embedding of `ScoreState` from `scoreCalculator.ts`. -/
structure ScoreState where
  score : ℕ
  streak : ℕ
  maxStreak : ℕ
  perfectCount : ℕ
  goodCount : ℕ
  okCount : ℕ
  missCount : ℕ
  deriving DecidableEq, Repr

/-- Embedding of `INITIAL_SCORE_STATE` from `scoreCalculator.ts`. -/
def INITIAL_SCORE_STATE : ScoreState := ⟨0, 0, 0, 0, 0, 0, 0⟩

/-- Embedding of `applyHitResult` from `scoreCalculator.ts` (the spec calls it `applyVerdict`). -/
def applyHitResult (state : ScoreState) (result : ScoreResult) : ScoreState :=
  let newStreak := updateStreak state.streak result
  let points := calculatePoints result state.streak
  { score := state.score + points
    streak := newStreak
    maxStreak := max state.maxStreak newStreak
    perfectCount := state.perfectCount + (if result = .perfect then 1 else 0)
    goodCount := state.goodCount + (if result = .good then 1 else 0)
    okCount := state.okCount + (if result = .ok then 1 else 0)
    missCount := state.missCount + (if result = .miss then 1 else 0) }

/-- Streak multiplier exactly as the spec words it: 1x below 10, 2x from 10,
3x from 20, 4x from 30, read off the pre-update streak. -/
def specStreakMultiplier (streak : ℕ) : ℕ :=
  if streak < 10 then 1 else if streak < 20 then 2 else if streak < 30 then 3 else 4

lemma getStreakMultiplier_eq_spec (streak : ℕ) :
    getStreakMultiplier streak = specStreakMultiplier streak := by
  simp only [getStreakMultiplier, STREAK_MULTIPLIERS, firstMultiplier, specStreakMultiplier]
  split_ifs <;> omega

/-- C1: applyVerdict adds `basePoints[r] * streakMultiplier(pre-update streak)` points
(1x below streak 10, 2x from 10, 3x from 20, 4x from 30), sets the streak to 0 on
Miss and to `streak + 1` otherwise, takes `maxStreak` to the max of the old value and
the new streak, and increments exactly the counter of the verdict; in particular a
Miss zeroes the streak and leaves `maxStreak` unchanged. -/
theorem C1_applyHitResult_spec (s : ScoreState) (r : ScoreResult) :
    (applyHitResult s r).score = s.score + POINTS_BY_RESULT r * specStreakMultiplier s.streak ∧
    (applyHitResult s r).streak = (if r = .miss then 0 else s.streak + 1) ∧
    (applyHitResult s r).maxStreak = max s.maxStreak (applyHitResult s r).streak ∧
    (applyHitResult s r).perfectCount = s.perfectCount + (if r = .perfect then 1 else 0) ∧
    (applyHitResult s r).goodCount = s.goodCount + (if r = .good then 1 else 0) ∧
    (applyHitResult s r).okCount = s.okCount + (if r = .ok then 1 else 0) ∧
    (applyHitResult s r).missCount = s.missCount + (if r = .miss then 1 else 0) ∧
    (applyHitResult s .miss).streak = 0 ∧
    (applyHitResult s .miss).maxStreak = s.maxStreak := by
  refine ⟨?_, rfl, rfl, rfl, rfl, rfl, rfl, rfl, ?_⟩
  · simp [applyHitResult, calculatePoints, getBasePoints, getStreakMultiplier_eq_spec]
  · simp [applyHitResult, updateStreak]

/-- Timing tolerance windows (`TimingTolerances` in `hitDetection.ts`). -/
structure TimingTolerances where
  perfectMs : ℚ
  goodMs : ℚ
  okMs : ℚ
  deriving DecidableEq, Repr

/-- Embedding of `DEFAULT_TIMING_TOLERANCES` from `hitDetection.ts`. -/
def DEFAULT_TIMING_TOLERANCES : TimingTolerances := ⟨50, 100, 200⟩

/-- Embedding of `classifyTiming` from `hitDetection.ts`. -/
def classifyTiming (offsetMs : ℚ) (tolerances : TimingTolerances) : Option ScoreResult :=
  let absOffset := |offsetMs|
  if absOffset ≤ tolerances.perfectMs then some .perfect
  else if absOffset ≤ tolerances.goodMs then some .good
  else if absOffset ≤ tolerances.okMs then some .ok
  else none

/-- Embedding of `RenderNote` from `tempoUtils.ts` (the fields the scoring pipeline consumes). -/
structure RenderNote where
  eventId : String
  noteIndex : ℕ
  timeSec : ℚ
  durationSec : ℚ
  string : ℕ
  fret : ℕ
  midi : ℤ
  isChord : Bool
  deriving DecidableEq, Repr

/-- Embedding of `findMissedNotes` from `hitDetection.ts`. -/
def findMissedNotes (currentTimeSec : ℚ) (pendingNotes : List RenderNote)
    (tolerances : TimingTolerances) : List RenderNote :=
  let missThresholdSec := tolerances.okMs / 1000
  pendingNotes.filter fun note => decide (currentTimeSec - note.timeSec > missThresholdSec)

/-- C2: with the default tolerances, `|offsetMs| ≤ 50` classifies Perfect,
`50 < |offsetMs| ≤ 100` Good, `100 < |offsetMs| ≤ 200` Ok, and beyond 200 no verdict;
at exactly 200 ms the result is Ok and at 201 ms the onset is unmatched, while
`findMissedNotes` marks a note missed only when `songTimeSec - note.timeSec` is
strictly greater than `okMs / 1000`. -/
theorem C2_timing_classification :
    (∀ offsetMs : ℚ,
      (classifyTiming offsetMs DEFAULT_TIMING_TOLERANCES = some .perfect ↔ |offsetMs| ≤ 50)) ∧
    (∀ offsetMs : ℚ,
      (classifyTiming offsetMs DEFAULT_TIMING_TOLERANCES = some .good ↔
        50 < |offsetMs| ∧ |offsetMs| ≤ 100)) ∧
    (∀ offsetMs : ℚ,
      (classifyTiming offsetMs DEFAULT_TIMING_TOLERANCES = some .ok ↔
        100 < |offsetMs| ∧ |offsetMs| ≤ 200)) ∧
    (∀ offsetMs : ℚ,
      (classifyTiming offsetMs DEFAULT_TIMING_TOLERANCES = none ↔ 200 < |offsetMs|)) ∧
    classifyTiming 200 DEFAULT_TIMING_TOLERANCES = some .ok ∧
    classifyTiming 201 DEFAULT_TIMING_TOLERANCES = none ∧
    (∀ (songTimeSec : ℚ) (pendingNotes : List RenderNote) (note : RenderNote),
      note ∈ findMissedNotes songTimeSec pendingNotes DEFAULT_TIMING_TOLERANCES ↔
        note ∈ pendingNotes ∧ songTimeSec - note.timeSec > 200 / 1000) := by
  refine ⟨?_, ?_, ?_, ?_, by decide, by decide, ?_⟩
  · intro x
    simp only [classifyTiming, DEFAULT_TIMING_TOLERANCES]
    split_ifs with h1 h2 h3 <;> simp_all <;> intros <;> linarith
  · intro x
    simp only [classifyTiming, DEFAULT_TIMING_TOLERANCES]
    split_ifs with h1 h2 h3 <;> simp_all <;> intros <;> linarith
  · intro x
    simp only [classifyTiming, DEFAULT_TIMING_TOLERANCES]
    split_ifs with h1 h2 h3 <;> simp_all <;> intros <;> linarith
  · intro x
    simp only [classifyTiming, DEFAULT_TIMING_TOLERANCES]
    split_ifs with h1 h2 h3 <;> simp_all <;> intros <;> linarith
  · intro t notes note
    simp [findMissedNotes, List.mem_filter, DEFAULT_TIMING_TOLERANCES]

/-- Embedding of `PITCH_TOLERANCE_SEMITONES` from `hitDetection.ts`. -/
def PITCH_TOLERANCE_SEMITONES : ℤ := 2

/-- Embedding of `pitchMatches` from `hitDetection.ts`, including the ±1 octave shift rule. -/
def pitchMatches (detectedMidi : Option ℤ) (expectedMidi : ℤ)
    (toleranceSemitones : ℤ) : Bool :=
  match detectedMidi with
  | none => false
  | some d =>
      let delta := |d - expectedMidi|
      if delta ≤ toleranceSemitones then true
      else
        decide (|d - (expectedMidi + 12)| ≤ toleranceSemitones) ||
        decide (|d - (expectedMidi - 12)| ≤ toleranceSemitones)

/-- C7: a detected midi matches an expected midi exactly when it is within the
tolerance of the expected value or of the expected value shifted by ±12 semitones;
a detected midi of `none` never matches; expected 52 with detected 64 matches at
the default tolerance 2. -/
theorem C7_pitchMatches_spec :
    (∀ (d m tol : ℤ),
      (pitchMatches (some d) m tol = true ↔
        |d - m| ≤ tol ∨ |d - (m + 12)| ≤ tol ∨ |d - (m - 12)| ≤ tol)) ∧
    (∀ (m tol : ℤ), pitchMatches none m tol = false) ∧
    pitchMatches (some 64) 52 PITCH_TOLERANCE_SEMITONES = true := by
  refine ⟨?_, fun m tol => rfl, by decide⟩
  intro d m tol
  simp only [pitchMatches]
  split_ifs with h
  · simp [h]
  · simp [h]

/-- Embedding of `NoteMatchResult` from `hitDetection.ts`. -/
structure NoteMatchResult where
  note : RenderNote
  offsetMs : ℚ
  result : ScoreResult
  deriving DecidableEq, Repr

/-- Key insertion order of the `chordGroups` map in `findMatchingNotes`:
event ids of chord notes, in order of first occurrence. -/
def chordEventIds (pendingNotes : List RenderNote) : List String :=
  pendingNotes.foldl
    (fun acc note => if note.isChord ∧ note.eventId ∉ acc then acc ++ [note.eventId] else acc) []

/-- Value lists of the `chordGroups` map: all pending chord notes with the given
event id, in list order. -/
def chordGroup (eventId : String) (pendingNotes : List RenderNote) : List RenderNote :=
  pendingNotes.filter fun n => n.isChord && n.eventId == eventId

/-- Body of the per-chord-group loop of `findMatchingNotes`: the offset is taken from
the first member, and on a timing match every member is scored identically. -/
def chordGroupMatches (detectedTimeSec : ℚ) (tolerances : TimingTolerances) :
    List RenderNote → List NoteMatchResult
  | [] => []
  | hd :: tl =>
      let offsetMs := (detectedTimeSec - hd.timeSec) * 1000
      if |offsetMs| > tolerances.okMs then []
      else
        match classifyTiming offsetMs tolerances with
        | none => []
        | some result => (hd :: tl).map fun n => ⟨n, offsetMs, result⟩

/-- The single-note part of `findMatchingNotes`: requires a pitch match. -/
def singleNoteMatches (detectedMidi : Option ℤ) (detectedTimeSec : ℚ)
    (tolerances : TimingTolerances) (pendingNotes : List RenderNote) :
    List NoteMatchResult :=
  match detectedMidi with
  | none => []
  | some _ =>
      pendingNotes.flatMap fun note =>
        if note.isChord then []
        else
          let offsetMs := (detectedTimeSec - note.timeSec) * 1000
          if |offsetMs| > tolerances.okMs then []
          else if pitchMatches detectedMidi note.midi PITCH_TOLERANCE_SEMITONES then
            match classifyTiming offsetMs tolerances with
            | some result => [⟨note, offsetMs, result⟩]
            | none => []
          else []

/-- Embedding of `findMatchingNotes` from `hitDetection.ts`: chord groups are judged as one timed
strum by timing alone, single notes additionally require a pitch match. -/
def findMatchingNotes (detectedMidi : Option ℤ) (detectedTimeSec : ℚ)
    (pendingNotes : List RenderNote) (tolerances : TimingTolerances) :
    List NoteMatchResult :=
  ((chordEventIds pendingNotes).flatMap fun e =>
      chordGroupMatches detectedTimeSec tolerances (chordGroup e pendingNotes)) ++
    singleNoteMatches detectedMidi detectedTimeSec tolerances pendingNotes

lemma mem_chordEventIds_foldl (e : String) (notes : List RenderNote) :
    ∀ acc : List String,
      (e ∈ notes.foldl
          (fun acc note =>
            if note.isChord ∧ note.eventId ∉ acc then acc ++ [note.eventId] else acc) acc ↔
        e ∈ acc ∨ ∃ n ∈ notes, n.isChord ∧ n.eventId = e) := by
  induction notes with
  | nil => simp
  | cons hd tl ih =>
      intro acc
      simp only [List.foldl_cons]
      rw [ih]
      by_cases hc : hd.isChord ∧ hd.eventId ∉ acc
      · rw [if_pos hc]
        constructor
        · intro h
          rcases h with h | ⟨n, hn, hch, heq⟩
          · rcases List.mem_append.mp h with h | h
            · exact Or.inl h
            · have he : e = hd.eventId := by simpa using h
              exact Or.inr ⟨hd, List.mem_cons_self hd tl, hc.1, he.symm⟩
          · exact Or.inr ⟨n, List.mem_cons_of_mem hd hn, hch, heq⟩
        · intro h
          rcases h with h | ⟨n, hn, hch, heq⟩
          · exact Or.inl (List.mem_append.mpr (Or.inl h))
          · rcases List.mem_cons.mp hn with rfl | hn
            · exact Or.inl (List.mem_append.mpr (Or.inr (by simp [heq])))
            · exact Or.inr ⟨n, hn, hch, heq⟩
      · rw [if_neg hc]
        constructor
        · intro h
          rcases h with h | ⟨n, hn, hch, heq⟩
          · exact Or.inl h
          · exact Or.inr ⟨n, List.mem_cons_of_mem hd hn, hch, heq⟩
        · intro h
          rcases h with h | ⟨n, hn, hch, heq⟩
          · exact Or.inl h
          · rcases List.mem_cons.mp hn with rfl | hn
            · rcases not_and_or.mp hc with h1 | h1
              · exact absurd hch (by simpa using h1)
              · rw [← heq]; exact Or.inl (not_not.mp h1)
            · exact Or.inr ⟨n, hn, hch, heq⟩

lemma mem_chordEventIds (e : String) (notes : List RenderNote) :
    e ∈ chordEventIds notes ↔ ∃ n ∈ notes, n.isChord ∧ n.eventId = e := by
  rw [chordEventIds, mem_chordEventIds_foldl]
  simp

lemma chordGroup_ne_nil_iff (e : String) (notes : List RenderNote) :
    chordGroup e notes ≠ [] ↔ ∃ n ∈ notes, n.isChord ∧ n.eventId = e := by
  rw [chordGroup, Ne, List.filter_eq_nil]
  push_neg
  constructor
  · rintro ⟨n, hn, hp⟩
    simp only [Bool.and_eq_true, beq_iff_eq] at hp
    exact ⟨n, hn, hp.1, hp.2⟩
  · rintro ⟨n, hn, hch, heq⟩
    exact ⟨n, hn, by simp [hch, heq]⟩

lemma chordGroup_mem_isChord (e : String) (notes : List RenderNote) (n : RenderNote)
    (hn : n ∈ chordGroup e notes) : n ∈ notes ∧ n.isChord ∧ n.eventId = e := by
  rw [chordGroup] at hn
  have := List.of_mem_filter hn
  simp only [Bool.and_eq_true, beq_iff_eq] at this
  exact ⟨List.mem_of_mem_filter hn, this.1, this.2⟩

/-- C6: a chord group (pending notes sharing an event id with `isChord` set) whose
first member lies within the ok window of the detected onset time is scored in full:
every member receives the same timing-only verdict, for any detected midi value,
including `none`. -/
theorem C6_chord_scoring (detectedMidi : Option ℤ) (detectedTimeSec : ℚ)
    (pendingNotes : List RenderNote) (e : String)
    (hne : chordGroup e pendingNotes ≠ [])
    (hwin : |(detectedTimeSec - ((chordGroup e pendingNotes).head hne).timeSec) * 1000| ≤ 200) :
    ∃ r : ScoreResult,
      classifyTiming ((detectedTimeSec - ((chordGroup e pendingNotes).head hne).timeSec) * 1000)
          DEFAULT_TIMING_TOLERANCES = some r ∧
      ∀ n ∈ chordGroup e pendingNotes,
        (⟨n, (detectedTimeSec - ((chordGroup e pendingNotes).head hne).timeSec) * 1000, r⟩ :
            NoteMatchResult) ∈
          findMatchingNotes detectedMidi detectedTimeSec pendingNotes
            DEFAULT_TIMING_TOLERANCES := by
  set g := chordGroup e pendingNotes with hg
  set off := (detectedTimeSec - (g.head hne).timeSec) * 1000 with hoff
  have hclassify : ∃ r : ScoreResult, classifyTiming off DEFAULT_TIMING_TOLERANCES = some r := by
    unfold classifyTiming DEFAULT_TIMING_TOLERANCES
    by_cases h1 : |off| ≤ 50
    · exact ⟨.perfect, by simp [h1]⟩
    · by_cases h2 : |off| ≤ 100
      · exact ⟨.good, by simp [h1, h2]⟩
      · exact ⟨.ok, by simp [h1, h2, hwin]⟩
  obtain ⟨r, hr⟩ := hclassify
  refine ⟨r, hr, ?_⟩
  intro n hn
  have hcons : g.head hne :: g.tail = g := List.head_cons_tail g hne
  have hmatches : chordGroupMatches detectedTimeSec DEFAULT_TIMING_TOLERANCES g =
      g.map fun m => (⟨m, off, r⟩ : NoteMatchResult) := by
    conv_lhs => rw [← hcons]
    rw [chordGroupMatches]
    rw [if_neg (by rw [← hoff]; exact not_lt.mpr hwin)]
    rw [← hoff, hr, hcons]
  have hmem_e : e ∈ chordEventIds pendingNotes := by
    rw [mem_chordEventIds]
    exact (chordGroup_ne_nil_iff e pendingNotes).mp hne
  rw [findMatchingNotes, List.mem_append]
  left
  rw [List.mem_flatMap]
  refine ⟨e, hmem_e, ?_⟩
  rw [← hg, hmatches, List.mem_map]
  exact ⟨n, hn, rfl⟩

/-- C6 witness: a concrete two-note chord with a `none` detected midi is fully
scored Perfect. -/
theorem C6_chord_scoring_witness :
    chordGroup "ev1" [⟨"ev1", 0, 2, 1, 3, 0, 55, true⟩, ⟨"ev1", 1, 2, 1, 4, 2, 59, true⟩] ≠ [] ∧
    ∃ r : ScoreResult,
      classifyTiming ((201 / 100 -
            ((chordGroup "ev1"
                [⟨"ev1", 0, 2, 1, 3, 0, 55, true⟩, ⟨"ev1", 1, 2, 1, 4, 2, 59, true⟩]).head
              (by decide)).timeSec) * 1000) DEFAULT_TIMING_TOLERANCES = some r ∧
      ∀ n ∈ chordGroup "ev1" [⟨"ev1", 0, 2, 1, 3, 0, 55, true⟩, ⟨"ev1", 1, 2, 1, 4, 2, 59, true⟩],
        (⟨n, (201 / 100 -
              ((chordGroup "ev1"
                  [⟨"ev1", 0, 2, 1, 3, 0, 55, true⟩, ⟨"ev1", 1, 2, 1, 4, 2, 59, true⟩]).head
                (by decide)).timeSec) * 1000, r⟩ : NoteMatchResult) ∈
          findMatchingNotes none (201 / 100)
            [⟨"ev1", 0, 2, 1, 3, 0, 55, true⟩, ⟨"ev1", 1, 2, 1, 4, 2, 59, true⟩]
            DEFAULT_TIMING_TOLERANCES :=
  ⟨by decide,
    C6_chord_scoring none (201 / 100)
      [⟨"ev1", 0, 2, 1, 3, 0, 55, true⟩, ⟨"ev1", 1, 2, 1, 4, 2, 59, true⟩] "ev1"
      (by decide) (by norm_num [chordGroup])⟩

/-- Embedding of `OnsetEvent` from `types/index.ts`, with the embedded pitch estimate consumed
by the onset intake. -/
structure OnsetEvent where
  timestampSec : ℚ
  rmsDb : ℚ
  midi : Option ℤ
  clarity : ℚ
  deriving DecidableEq, Repr

/-- Embedding of `DetectedOnset` from `gameEngine/onsetIntake.ts`. -/
structure DetectedOnset where
  detectedMidi : Option ℤ
  onsetSongTimeSec : ℚ
  onset : OnsetEvent
  deriving DecidableEq, Repr

/-- Embedding of `getNoteKey` from `hitDetection.ts`. -/
def getNoteKey (note : RenderNote) : String :=
  note.eventId ++ "-" ++ toString note.noteIndex

/-- The mutable state captured by the closures of `createScoringEngine`
(`gameEngine/scoring`): score, last verdict, the resolved-note key set, and the
per-key verdict and hit-timestamp maps. -/
structure ScoringEngineState where
  scoreState : ScoreState
  lastHitResult : Option ScoreResult
  hitNotes : List String
  noteResults : List (String × ScoreResult)
  hitTimestamps : List (String × ℚ)
  deriving DecidableEq, Repr

/-- The state produced by `createScoringEngine`'s `reset`. -/
def initialScoringEngineState : ScoringEngineState :=
  ⟨INITIAL_SCORE_STATE, none, [], [], []⟩

/-- The body of the per-match loop in `processDetectedOnsets`: skip an already
resolved key, otherwise record the verdict, the hit timestamp, the score update,
and emit one play event (returned as the second component). -/
def scoreMatch (st : ScoringEngineState) (onsetSongTimeSec : ℚ) (m : NoteMatchResult) :
    ScoringEngineState × List (String × ScoreResult) :=
  let noteKey := getNoteKey m.note
  if noteKey ∈ st.hitNotes then (st, [])
  else
    ({ scoreState := applyHitResult st.scoreState m.result
       lastHitResult := some m.result
       hitNotes := noteKey :: st.hitNotes
       noteResults := (noteKey, m.result) :: st.noteResults
       hitTimestamps := (noteKey, onsetSongTimeSec) :: st.hitTimestamps },
     [(noteKey, m.result)])

/-- The body of the per-onset loop in `processDetectedOnsets`: filter pending notes,
match them, and score each match. -/
def processOneOnset (allNotes : List RenderNote)
    (acc : ScoringEngineState × List (String × ScoreResult)) (detected : DetectedOnset) :
    ScoringEngineState × List (String × ScoreResult) :=
  let pendingNotes := allNotes.filter fun n => !(acc.1.hitNotes.contains (getNoteKey n))
  let matchList := findMatchingNotes detected.detectedMidi detected.onsetSongTimeSec
    pendingNotes DEFAULT_TIMING_TOLERANCES
  matchList.foldl
    (fun acc2 m =>
      let next := scoreMatch acc2.1 detected.onsetSongTimeSec m
      (next.1, acc2.2 ++ next.2)) acc

/-- Embedding of `processDetectedOnsets` from `createScoringEngine`, with the emitted play events
returned as a list of (note key, verdict) pairs. -/
def processDetectedOnsets (st : ScoringEngineState) (detectedOnsets : List DetectedOnset)
    (allNotes : List RenderNote) : ScoringEngineState × List (String × ScoreResult) :=
  detectedOnsets.foldl (processOneOnset allNotes) (st, [])

/-- The body of the per-missed-note loop in `processMisses`. -/
def missStep (acc : ScoringEngineState × List (String × ScoreResult)) (note : RenderNote) :
    ScoringEngineState × List (String × ScoreResult) :=
  let noteKey := getNoteKey note
  if noteKey ∈ acc.1.hitNotes then acc
  else
    ({ acc.1 with
        scoreState := applyHitResult acc.1.scoreState .miss
        lastHitResult := some .miss
        hitNotes := noteKey :: acc.1.hitNotes
        noteResults := (noteKey, .miss) :: acc.1.noteResults },
     acc.2 ++ [(noteKey, ScoreResult.miss)])

/-- Embedding of `processMisses` from `createScoringEngine`. -/
def processMisses (st : ScoringEngineState) (songTimeSec : ℚ)
    (allNotes : List RenderNote) : ScoringEngineState × List (String × ScoreResult) :=
  let pendingNotes := allNotes.filter fun n => !(st.hitNotes.contains (getNoteKey n))
  let missedNotes := findMissedNotes songTimeSec pendingNotes DEFAULT_TIMING_TOLERANCES
  missedNotes.foldl missStep (st, [])

/-- A resolved key is left untouched by a state transition: it stays resolved and
keeps its recorded verdict and hit timestamp. -/
def keyUntouched (st0 st1 : ScoringEngineState) (key : String) : Prop :=
  key ∈ st1.hitNotes ∧
  st1.noteResults.lookup key = st0.noteResults.lookup key ∧
  st1.hitTimestamps.lookup key = st0.hitTimestamps.lookup key

lemma lookup_cons_of_ne {β : Type} (key noteKey : String) (v : β)
    (l : List (String × β)) (h : noteKey ≠ key) :
    ((noteKey, v) :: l).lookup key = l.lookup key := by
  simp [List.lookup, beq_eq_false_iff_ne.mpr (Ne.symm h)]

lemma foldl_preserves {α β : Type} (P : β → Prop) (f : β → α → β)
    (hstep : ∀ b a, P b → P (f b a)) :
    ∀ (l : List α) (b : β), P b → P (l.foldl f b) := by
  intro l
  induction l with
  | nil => intro b hb; exact hb
  | cons hd tl ih => intro b hb; exact ih (f b hd) (hstep b hd hb)

/-- One-frame invariant for C3, relative to an initial state and a resolved key. -/
def untouchedInv (st0 : ScoringEngineState) (key : String)
    (acc : ScoringEngineState × List (String × ScoreResult)) : Prop :=
  keyUntouched st0 acc.1 key ∧ key ∉ acc.2.map Prod.fst

lemma scoreMatch_untouched (st0 : ScoringEngineState) (key : String) (t : ℚ)
    (m : NoteMatchResult) (acc : ScoringEngineState × List (String × ScoreResult))
    (hinv : untouchedInv st0 key acc) :
    untouchedInv st0 key ((scoreMatch acc.1 t m).1, acc.2 ++ (scoreMatch acc.1 t m).2) := by
  obtain ⟨⟨hmem, hres, hts⟩, hev⟩ := hinv
  rw [scoreMatch]
  by_cases hk : getNoteKey m.note ∈ acc.1.hitNotes
  · rw [if_pos hk]
    exact ⟨⟨hmem, hres, hts⟩, by simpa using hev⟩
  · rw [if_neg hk]
    have hne : getNoteKey m.note ≠ key := fun h => hk (h ▸ hmem)
    refine ⟨⟨List.mem_cons_of_mem _ hmem, ?_, ?_⟩, ?_⟩
    · rw [lookup_cons_of_ne key (getNoteKey m.note) _ _ hne]; exact hres
    · rw [lookup_cons_of_ne key (getNoteKey m.note) _ _ hne]; exact hts
    · simp only [List.map_append, List.mem_append]
      rintro (h | h)
      · exact hev h
      · simp only [List.map_cons, List.map_nil, List.mem_singleton] at h
        exact hne h.symm

lemma processOneOnset_untouched (st0 : ScoringEngineState) (key : String)
    (allNotes : List RenderNote) (acc : ScoringEngineState × List (String × ScoreResult))
    (detected : DetectedOnset) (hinv : untouchedInv st0 key acc) :
    untouchedInv st0 key (processOneOnset allNotes acc detected) := by
  rw [processOneOnset]
  exact foldl_preserves (untouchedInv st0 key) _
    (fun b a hb => scoreMatch_untouched st0 key _ a b hb) _ acc hinv

lemma missStep_untouched (st0 : ScoringEngineState) (key : String)
    (acc : ScoringEngineState × List (String × ScoreResult)) (note : RenderNote)
    (hinv : untouchedInv st0 key acc) :
    untouchedInv st0 key (missStep acc note) := by
  obtain ⟨⟨hmem, hres, hts⟩, hev⟩ := hinv
  rw [missStep]
  by_cases hk : getNoteKey note ∈ acc.1.hitNotes
  · rw [if_pos hk]
    exact ⟨⟨hmem, hres, hts⟩, hev⟩
  · rw [if_neg hk]
    have hne : getNoteKey note ≠ key := fun h => hk (h ▸ hmem)
    refine ⟨⟨List.mem_cons_of_mem _ hmem, ?_, hts⟩, ?_⟩
    · rw [lookup_cons_of_ne key (getNoteKey note) _ _ hne]; exact hres
    · simp only [List.map_append, List.mem_append]
      rintro (h | h)
      · exact hev h
      · simp only [List.map_cons, List.map_nil, List.mem_singleton] at h
        exact hne h.symm

/-- C3: once a note key is in the resolved set, any further `processDetectedOnsets`
pass followed by any `processMisses` pass leaves its verdict and its recorded hit
timestamp unchanged, keeps it resolved, and never emits another play event for it
(so every note scored in a frame was not previously resolved). -/
theorem C3_at_most_one_verdict (st : ScoringEngineState) (key : String)
    (hkey : key ∈ st.hitNotes) (detectedOnsets : List DetectedOnset) (songTimeSec : ℚ)
    (allNotes allNotesLater : List RenderNote) :
    ((processMisses (processDetectedOnsets st detectedOnsets allNotes).1 songTimeSec
          allNotesLater).1.noteResults.lookup key = st.noteResults.lookup key) ∧
    ((processMisses (processDetectedOnsets st detectedOnsets allNotes).1 songTimeSec
          allNotesLater).1.hitTimestamps.lookup key = st.hitTimestamps.lookup key) ∧
    key ∈ (processMisses (processDetectedOnsets st detectedOnsets allNotes).1 songTimeSec
          allNotesLater).1.hitNotes ∧
    key ∉ (processDetectedOnsets st detectedOnsets allNotes).2.map Prod.fst ∧
    key ∉ (processMisses (processDetectedOnsets st detectedOnsets allNotes).1 songTimeSec
          allNotesLater).2.map Prod.fst := by
  have h1 : untouchedInv st key (processDetectedOnsets st detectedOnsets allNotes) := by
    rw [processDetectedOnsets]
    exact foldl_preserves (untouchedInv st key) _
      (fun b a hb => processOneOnset_untouched st key allNotes b a hb) _ (st, [])
      ⟨⟨hkey, rfl, rfl⟩, by simp⟩
  set p := processDetectedOnsets st detectedOnsets allNotes with hp
  have h2 : untouchedInv p.1 key (processMisses p.1 songTimeSec allNotesLater) := by
    rw [processMisses]
    exact foldl_preserves (untouchedInv p.1 key) _
      (fun b a hb => missStep_untouched p.1 key b a hb) _ (p.1, [])
      ⟨⟨h1.1.1, rfl, rfl⟩, by simp⟩
  obtain ⟨⟨hmem1, hres1, hts1⟩, hev1⟩ := h1
  obtain ⟨⟨hmem2, hres2, hts2⟩, hev2⟩ := h2
  exact ⟨hres2.trans hres1, hts2.trans hts1, hmem2, hev1, hev2⟩

/-- C3 witness: a concrete already-resolved note keeps its Perfect verdict and
timestamp through a later onset pass and miss pass. -/
theorem C3_at_most_one_verdict_witness :
    ("e1-0" : String) ∈
      (⟨INITIAL_SCORE_STATE, some .perfect, ["e1-0"], [("e1-0", .perfect)],
          [("e1-0", (2 : ℚ))]⟩ : ScoringEngineState).hitNotes ∧
    ((processMisses
        (processDetectedOnsets
          ⟨INITIAL_SCORE_STATE, some .perfect, ["e1-0"], [("e1-0", .perfect)],
            [("e1-0", (2 : ℚ))]⟩
          [⟨some 64, 2, ⟨2, -20, some 64, 9/10⟩⟩]
          [⟨"e1", 0, 2, 1, 3, 0, 64, false⟩]).1 (10 : ℚ)
        [⟨"e1", 0, 2, 1, 3, 0, 64, false⟩]).1.noteResults.lookup "e1-0" =
      (⟨INITIAL_SCORE_STATE, some .perfect, ["e1-0"], [("e1-0", .perfect)],
          [("e1-0", (2 : ℚ))]⟩ : ScoringEngineState).noteResults.lookup "e1-0") :=
  ⟨by decide,
    (C3_at_most_one_verdict
      ⟨INITIAL_SCORE_STATE, some .perfect, ["e1-0"], [("e1-0", .perfect)],
        [("e1-0", (2 : ℚ))]⟩ "e1-0" (by decide)
      [⟨some 64, 2, ⟨2, -20, some 64, 9/10⟩⟩] 10
      [⟨"e1", 0, 2, 1, 3, 0, 64, false⟩] [⟨"e1", 0, 2, 1, 3, 0, 64, false⟩]).1⟩

/-- Embedding of `GameState` from `types/index.ts`. -/
inductive GameState where
  | idle
  | countdown
  | playing
  | paused
  | finished
  deriving DecidableEq, Repr

/-- Embedding of `LoopConfig` from `types/index.ts`. -/
structure LoopConfig where
  sectionId : String
  sectionName : String
  startSec : ℚ
  endSec : ℚ
  deriving DecidableEq, Repr

/-- Embedding of `getSongTimeSec` from `gameEngine/clock.ts`. -/
def getSongTimeSec (audioTimeSec playStartTimeSec speed : ℚ) : ℚ :=
  (audioTimeSec - playStartTimeSec) * speed

/-- Embedding of `getPlayStartTimeForSongTime` from `gameEngine/clock.ts`. -/
def getPlayStartTimeForSongTime (audioTimeSec songTimeSec speed : ℚ) : ℚ :=
  audioTimeSec - songTimeSec / speed

/-- Embedding of `shouldRestartLoop` from `gameEngine/looping.ts`. -/
def shouldRestartLoop (loopConfig : Option LoopConfig) (songTimeSec : ℚ) : Bool :=
  match loopConfig with
  | none => false
  | some lc => decide (songTimeSec ≥ lc.endSec)

/-- Embedding of `computeLoopRestart` from `gameEngine/looping.ts`, returning
`(songTimeSec, playStartTimeSec)`. -/
def computeLoopRestart (audioTimeSec : ℚ) (loopConfig : LoopConfig) (speed : ℚ) : ℚ × ℚ :=
  (loopConfig.startSec, getPlayStartTimeForSongTime audioTimeSec loopConfig.startSec speed)

/-- The mutable refs of `useGameEngine` that the `playing` branch of `gameLoop`
reads and writes: transport state, the scoring refs (bundled as a
`ScoringEngineState`), loop bookkeeping, and the displayed song time. -/
structure GameEngineState where
  gameState : GameState
  playStartTime : ℚ
  speed : ℚ
  loopConfig : Option LoopConfig
  loopCount : ℕ
  scoring : ScoringEngineState
  lastOnset : Option OnsetEvent
  currentTimeSec : ℚ
  deriving DecidableEq, Repr

/-- Outcome of one `playing` frame: loop restart, song finish, or a normal frame. -/
inductive FrameOutcome where
  | loopRestarted
  | finished
  | normal
  deriving DecidableEq, Repr

/-- The tail of the `playing` branch of `gameLoop` after the loop-restart check:
finish check, onset hit detection, and miss detection. -/
def gameLoopPlayingRest (st : GameEngineState) (songTime : ℚ)
    (currentOnset : Option OnsetEvent) (allNotes : List RenderNote) (duration : ℚ) :
    GameEngineState × FrameOutcome :=
  if songTime ≥ duration then
    ({ st with gameState := .finished, currentTimeSec := duration }, .finished)
  else
    let stAfterOnset :=
      match currentOnset with
      | some onset =>
          if st.lastOnset ≠ some onset then
            let st1 := { st with lastOnset := some onset }
            match onset.midi with
            | some detectedMidi =>
                let onsetElapsed := onset.timestampSec - st.playStartTime
                let onsetSongTime := onsetElapsed * st.speed
                let pendingNotes := allNotes.filter fun n =>
                  !(st1.scoring.hitNotes.contains (getNoteKey n))
                let matchList := findMatchingNotes (some detectedMidi) onsetSongTime
                  pendingNotes DEFAULT_TIMING_TOLERANCES
                { st1 with scoring :=
                    (matchList.foldl
                      (fun (acc : ScoringEngineState × List (String × ScoreResult)) m =>
                        let next := scoreMatch acc.1 onsetSongTime m
                        (next.1, acc.2 ++ next.2)) (st1.scoring, [])).1 }
            | none => st1
          else st
      | none => st
    let afterMisses := processMisses stAfterOnset.scoring songTime allNotes
    ({ stAfterOnset with scoring := afterMisses.1, currentTimeSec := songTime }, .normal)

/-- The `playing` branch of `gameLoop` in `useGameEngine.ts`. `audioTime` is the
audio-clock reading at the top of the frame; `audioTimeAtRestart` is the fresh
reading taken inside the loop-restart branch. -/
def gameLoopPlaying (st : GameEngineState) (audioTime audioTimeAtRestart : ℚ)
    (currentOnset : Option OnsetEvent) (allNotes : List RenderNote) (duration : ℚ) :
    GameEngineState × FrameOutcome :=
  let elapsed := audioTime - st.playStartTime
  let songTime := elapsed * st.speed
  match st.loopConfig with
  | some loopConfig =>
      if songTime ≥ loopConfig.endSec then
        let loopStartOffset := loopConfig.startSec / st.speed
        ({ st with
            playStartTime := audioTimeAtRestart - loopStartOffset
            currentTimeSec := loopConfig.startSec
            scoring := initialScoringEngineState
            lastOnset := none
            loopCount := st.loopCount + 1 }, .loopRestarted)
      else gameLoopPlayingRest st songTime currentOnset allNotes duration
  | none => gameLoopPlayingRest st songTime currentOnset allNotes duration

/-- C4: when a loop is active and the song time has reached `endSec`, the frame
restarts the loop: song time is set exactly to `startSec`, `playStartTime` is
recomputed as `audioTime - startSec / speed` (so the clock yields exactly
`startSec` again), the score state is reset to the initial zero state, the
resolved-note set is emptied, and the loop counter increments by one; this agrees
with `computeLoopRestart`. -/
theorem C4_loop_restart (st : GameEngineState) (audioTime audioTimeAtRestart : ℚ)
    (currentOnset : Option OnsetEvent) (allNotes : List RenderNote) (duration : ℚ)
    (lc : LoopConfig) (hlc : st.loopConfig = some lc)
    (hend : (audioTime - st.playStartTime) * st.speed ≥ lc.endSec)
    (hspeed : 0 < st.speed) :
    (gameLoopPlaying st audioTime audioTimeAtRestart currentOnset allNotes duration).2 =
        .loopRestarted ∧
    (gameLoopPlaying st audioTime audioTimeAtRestart currentOnset allNotes
        duration).1.currentTimeSec = lc.startSec ∧
    (gameLoopPlaying st audioTime audioTimeAtRestart currentOnset allNotes
        duration).1.playStartTime = audioTimeAtRestart - lc.startSec / st.speed ∧
    getSongTimeSec audioTimeAtRestart
        (gameLoopPlaying st audioTime audioTimeAtRestart currentOnset allNotes
          duration).1.playStartTime st.speed = lc.startSec ∧
    (gameLoopPlaying st audioTime audioTimeAtRestart currentOnset allNotes
        duration).1.scoring.scoreState = INITIAL_SCORE_STATE ∧
    (∀ note : RenderNote,
      getNoteKey note ∉
        (gameLoopPlaying st audioTime audioTimeAtRestart currentOnset allNotes
          duration).1.scoring.hitNotes) ∧
    (gameLoopPlaying st audioTime audioTimeAtRestart currentOnset allNotes
        duration).1.loopCount = st.loopCount + 1 ∧
    computeLoopRestart audioTimeAtRestart lc st.speed =
      (lc.startSec,
        (gameLoopPlaying st audioTime audioTimeAtRestart currentOnset allNotes
          duration).1.playStartTime) := by
  have hred : gameLoopPlaying st audioTime audioTimeAtRestart currentOnset allNotes duration =
      ({ st with
          playStartTime := audioTimeAtRestart - lc.startSec / st.speed
          currentTimeSec := lc.startSec
          scoring := initialScoringEngineState
          lastOnset := none
          loopCount := st.loopCount + 1 }, .loopRestarted) := by
    rw [gameLoopPlaying, hlc]
    simp only [if_pos hend]
  rw [hred]
  refine ⟨rfl, rfl, rfl, ?_, rfl, ?_, rfl, ?_⟩
  · show (audioTimeAtRestart - (audioTimeAtRestart - lc.startSec / st.speed)) * st.speed =
      lc.startSec
    field_simp
  · intro note
    simp [initialScoringEngineState]
  · show (lc.startSec, audioTimeAtRestart - lc.startSec / st.speed) = _
    rfl

/-- C4 witness: a concrete loop restart from a state with speed 1/2 and a loop
section from 2 s to 5 s. -/
theorem C4_loop_restart_witness :
    ((⟨.playing, 0, 1/2, some ⟨"s1", "Chorus", 2, 5⟩, 3,
        ⟨⟨100, 1, 1, 1, 0, 0, 0⟩, some .perfect, ["e1-0"], [("e1-0", .perfect)],
          [("e1-0", (2 : ℚ))]⟩, none, 9/2⟩ : GameEngineState).loopConfig =
      some ⟨"s1", "Chorus", 2, 5⟩) ∧
    ((10 : ℚ) - 0) * (1/2) ≥ (5 : ℚ) ∧
    (0 : ℚ) < 1/2 ∧
    (gameLoopPlaying
        ⟨.playing, 0, 1/2, some ⟨"s1", "Chorus", 2, 5⟩, 3,
          ⟨⟨100, 1, 1, 1, 0, 0, 0⟩, some .perfect, ["e1-0"], [("e1-0", .perfect)],
            [("e1-0", (2 : ℚ))]⟩, none, 9/2⟩ 10 10 none [] 20).1.currentTimeSec = 2 ∧
    (gameLoopPlaying
        ⟨.playing, 0, 1/2, some ⟨"s1", "Chorus", 2, 5⟩, 3,
          ⟨⟨100, 1, 1, 1, 0, 0, 0⟩, some .perfect, ["e1-0"], [("e1-0", .perfect)],
            [("e1-0", (2 : ℚ))]⟩, none, 9/2⟩ 10 10 none [] 20).1.loopCount = 4 :=
  ⟨rfl, by norm_num, by norm_num,
    ((C4_loop_restart
        ⟨.playing, 0, 1/2, some ⟨"s1", "Chorus", 2, 5⟩, 3,
          ⟨⟨100, 1, 1, 1, 0, 0, 0⟩, some .perfect, ["e1-0"], [("e1-0", .perfect)],
            [("e1-0", (2 : ℚ))]⟩, none, 9/2⟩ 10 10 none [] 20 ⟨"s1", "Chorus", 2, 5⟩
        rfl (by norm_num) (by norm_num)).2.1),
    ((C4_loop_restart
        ⟨.playing, 0, 1/2, some ⟨"s1", "Chorus", 2, 5⟩, 3,
          ⟨⟨100, 1, 1, 1, 0, 0, 0⟩, some .perfect, ["e1-0"], [("e1-0", .perfect)],
            [("e1-0", (2 : ℚ))]⟩, none, 9/2⟩ 10 10 none [] 20 ⟨"s1", "Chorus", 2, 5⟩
        rfl (by norm_num) (by norm_num)).2.2.2.2.2.2.1)⟩

/-- Embedding of `OnsetDetectorConfig` from `onsetDetector.ts`. -/
structure OnsetDetectorConfig where
  thresholdDb : ℚ
  riseThresholdDb : ℚ
  debounceMs : ℚ
  sampleRate : ℚ
  hopSamples : ℚ
  deriving DecidableEq, Repr

/-- Mutable state of the `OnsetDetector` class; `none` models the `-Infinity`
initial values of `lastRmsDb` and `lastOnsetTimeSec`. -/
structure OnsetDetectorState where
  lastRmsDb : Option ℚ
  lastOnsetTimeSec : Option ℚ
  currentTimeSec : ℚ
  deriving DecidableEq, Repr

/-- Constructor state of `OnsetDetector`. -/
def OnsetDetector.init : OnsetDetectorState := ⟨none, none, 0⟩

/-- The `hopDurationSec` field computed in the `OnsetDetector` constructor. -/
def hopDurationSec (config : OnsetDetectorConfig) : ℚ :=
  config.hopSamples / config.sampleRate

/-- Embedding of `OnsetDetector.process` from `onsetDetector.ts`: returns the new state and
whether an onset fired. Comparisons against the `-Infinity` sentinels are always
true, matching the JavaScript arithmetic. Note that `currentTimeSec` is advanced
by one hop before `lastOnsetTimeSec` is recorded, exactly as in the source. -/
def OnsetDetector.process (config : OnsetDetectorConfig) (st : OnsetDetectorState)
    (rmsDb : ℚ) : OnsetDetectorState × Bool :=
  let debounceTimeSec := config.debounceMs / 1000
  let isAboveThreshold : Bool := decide (rmsDb > config.thresholdDb)
  let isRising : Bool :=
    match st.lastRmsDb with
    | none => true
    | some v => decide (rmsDb - v > config.riseThresholdDb)
  let isDebounced : Bool :=
    match st.lastOnsetTimeSec with
    | none => true
    | some t0 => decide (st.currentTimeSec - t0 > debounceTimeSec)
  let isOnset := isAboveThreshold && isRising && isDebounced
  let newTime := st.currentTimeSec + hopDurationSec config
  (⟨some rmsDb, if isOnset then some newTime else st.lastOnsetTimeSec, newTime⟩, isOnset)

/-- Run `OnsetDetector.process` over a sequence of per-frame RMS levels, collecting
the fired flags. -/
def OnsetDetector.run (config : OnsetDetectorConfig) (inputs : List ℚ) :
    OnsetDetectorState × List Bool :=
  inputs.foldl
    (fun (acc : OnsetDetectorState × List Bool) rmsDb =>
      let next := OnsetDetector.process config acc.1 rmsDb
      (next.1, acc.2 ++ [next.2])) (OnsetDetector.init, [])

/-- Onset-detection state of `PitchDetectorProcessor` in the worklet:
`lastRmsDb` starts at -100 and `none` models the `-Infinity` `lastOnsetTime`. -/
structure WorkletOnsetState where
  lastRmsDb : ℚ
  lastOnsetTime : Option ℚ
  deriving DecidableEq, Repr

/-- Initial worklet onset state. -/
def workletOnsetInit : WorkletOnsetState := ⟨-100, none⟩

/-- The onset-detection part of `analyzeFrame` in `pitch-detector.worklet.ts`;
`currentTime` is the audio-context clock reading at the analysis call. -/
def analyzeFrameOnset (onsetThresholdDb onsetRiseDb debounceMs : ℚ)
    (st : WorkletOnsetState) (currentTime rmsDb : ℚ) : WorkletOnsetState × Bool :=
  let isRising : Bool := decide (rmsDb - st.lastRmsDb > onsetRiseDb)
  let isAboveThreshold : Bool := decide (rmsDb > onsetThresholdDb)
  let isDebounced : Bool :=
    match st.lastOnsetTime with
    | none => true
    | some t0 => decide ((currentTime - t0) * 1000 > debounceMs)
  let isOnset := isAboveThreshold && isRising && isDebounced
  (⟨rmsDb, if isOnset then some currentTime else st.lastOnsetTime⟩, isOnset)

/-- C8 counterexample: with the default configuration, `OnsetDetector.process` fed
seven frames containing two qualifying attacks 5 hops = 2560/44100 s (about 58 ms,
more than the 50 ms debounce) apart fires exactly one onset, because
`lastOnsetTimeSec` records the post-increment clock value. -/
theorem C8_counterexample :
    ((5 : ℚ) * (512 / 44100) > 50 / 1000) ∧
    ((-10 : ℚ) > -40) ∧ ((-10 : ℚ) - (-80) > 6) ∧
    ((OnsetDetector.run ⟨-40, 6, 50, 44100, 512⟩
        [-80, -10, -80, -80, -80, -80, -10]).2.count true = 1) := by
  refine ⟨by norm_num, by norm_num, by norm_num, ?_⟩
  norm_num [OnsetDetector.run, OnsetDetector.process, OnsetDetector.init, hopDurationSec,
    List.foldl_cons, List.foldl_nil, List.count_cons, List.count_nil]

/-- C8 (amended): an onset fires exactly when the level is above the threshold,
rose by more than the rise threshold since the previous frame, and more than the
debounce has elapsed since the recorded last-onset time; `lastRmsDb` is updated on
every call and the last-onset time only on firing. For the worklet's
`analyzeFrame` the recorded time is the firing frame's clock reading, so a second
qualifying attack fires exactly when the attacks are more than `debounceMs` apart;
for `OnsetDetector.process` the recorded time is the post-increment clock value
(one hop after the firing frame), so attacks must be more than
`debounceMs/1000 + hopDurationSec` apart. -/
theorem C8_onset_firing_amended :
    (∀ (config : OnsetDetectorConfig) (st : OnsetDetectorState) (rmsDb v t0 : ℚ),
      st.lastRmsDb = some v → st.lastOnsetTimeSec = some t0 →
      ((OnsetDetector.process config st rmsDb).2 = true ↔
        rmsDb > config.thresholdDb ∧ rmsDb - v > config.riseThresholdDb ∧
          st.currentTimeSec - t0 > config.debounceMs / 1000)) ∧
    (∀ (config : OnsetDetectorConfig) (st : OnsetDetectorState) (rmsDb : ℚ),
      (OnsetDetector.process config st rmsDb).1.lastRmsDb = some rmsDb ∧
      (OnsetDetector.process config st rmsDb).1.currentTimeSec =
        st.currentTimeSec + hopDurationSec config) ∧
    (∀ (config : OnsetDetectorConfig) (st : OnsetDetectorState) (rmsDb : ℚ),
      (OnsetDetector.process config st rmsDb).2 = false →
        (OnsetDetector.process config st rmsDb).1.lastOnsetTimeSec = st.lastOnsetTimeSec) ∧
    (∀ (config : OnsetDetectorConfig) (st : OnsetDetectorState) (rmsDb : ℚ),
      (OnsetDetector.process config st rmsDb).2 = true →
        (OnsetDetector.process config st rmsDb).1.lastOnsetTimeSec =
          some (st.currentTimeSec + hopDurationSec config)) ∧
    (∀ (thr rise deb : ℚ) (st : WorkletOnsetState) (t r t0 : ℚ),
      st.lastOnsetTime = some t0 →
      ((analyzeFrameOnset thr rise deb st t r).2 = true ↔
        r > thr ∧ r - st.lastRmsDb > rise ∧ (t - t0) * 1000 > deb)) ∧
    (∀ (thr rise deb : ℚ) (st : WorkletOnsetState) (t r : ℚ),
      (analyzeFrameOnset thr rise deb st t r).1.lastRmsDb = r ∧
      ((analyzeFrameOnset thr rise deb st t r).2 = true →
        (analyzeFrameOnset thr rise deb st t r).1.lastOnsetTime = some t) ∧
      ((analyzeFrameOnset thr rise deb st t r).2 = false →
        (analyzeFrameOnset thr rise deb st t r).1.lastOnsetTime = st.lastOnsetTime)) ∧
    (∀ (thr rise deb : ℚ) (st0 : WorkletOnsetState) (T1 T2 r1 r2 : ℚ),
      (analyzeFrameOnset thr rise deb st0 T1 r1).2 = true →
      r2 > thr → r2 - r1 > rise →
      ((analyzeFrameOnset thr rise deb (analyzeFrameOnset thr rise deb st0 T1 r1).1
          T2 r2).2 = true ↔ (T2 - T1) * 1000 > deb)) := by
  refine ⟨?_, ?_, ?_, ?_, ?_, ?_, ?_⟩
  · intro config st rmsDb v t0 h1 h2
    obtain ⟨lr, lo, ct⟩ := st
    simp only at h1 h2
    subst h1; subst h2
    simp [OnsetDetector.process, and_assoc]
  · intro config st rmsDb
    exact ⟨rfl, rfl⟩
  · intro config st rmsDb h
    simp only [OnsetDetector.process] at h ⊢
    rw [if_neg]
    simp [h]
  · intro config st rmsDb h
    simp only [OnsetDetector.process] at h ⊢
    rw [if_pos h]
  · intro thr rise deb st t r t0 h
    obtain ⟨lr, lo⟩ := st
    simp only at h
    subst h
    simp [analyzeFrameOnset, and_assoc]
  · intro thr rise deb st t r
    refine ⟨rfl, ?_, ?_⟩
    · intro h
      simp only [analyzeFrameOnset] at h ⊢
      rw [if_pos h]
    · intro h
      simp only [analyzeFrameOnset] at h ⊢
      rw [if_neg]
      simp [h]
  · intro thr rise deb st0 T1 T2 r1 r2 hf1 hr2a hr2b
    have hst1 : (analyzeFrameOnset thr rise deb st0 T1 r1).1 = ⟨r1, some T1⟩ := by
      simp only [analyzeFrameOnset] at hf1 ⊢
      rw [if_pos hf1]
    rw [hst1]
    simp [analyzeFrameOnset, hr2a, hr2b]

/-- C8 witness: the amended firing rule evaluated at concrete states, including the
worklet two-attack scenario with attacks 60 ms apart. -/
theorem C8_onset_firing_amended_witness :
    ((OnsetDetector.process ⟨-40, 6, 50, 44100, 512⟩ ⟨some (-80), some 0, 1⟩ (-10)).2 = true ↔
      ((-10 : ℚ) > -40 ∧ (-10 : ℚ) - (-80) > 6 ∧ (1 : ℚ) - 0 > 50 / 1000)) ∧
    ((analyzeFrameOnset (-40) 6 50
        (analyzeFrameOnset (-40) 6 50 ⟨-100, none⟩ 1 (-30)).1 (106 / 100) (-10)).2 = true ↔
      ((106 / 100 : ℚ) - 1) * 1000 > 50) :=
  ⟨C8_onset_firing_amended.1 ⟨-40, 6, 50, 44100, 512⟩ ⟨some (-80), some 0, 1⟩ (-10) (-80) 0
      rfl rfl,
    C8_onset_firing_amended.2.2.2.2.2.2 (-40) 6 50 ⟨-100, none⟩ 1 (106 / 100) (-30) (-10)
      (by norm_num [analyzeFrameOnset]) (by norm_num) (by norm_num)⟩

/-- The first-tau-below-threshold scan shared by both `YinDetector` copies:
first lag in `[minTau, maxTau)` whose CMND value is below the threshold. -/
def firstBelowThreshold (yinBuffer : List ℚ) (threshold : ℚ) (minTau maxTau : ℕ) :
    Option ℕ :=
  (List.range' minTau (maxTau - minTau)).find? fun tau =>
    decide (yinBuffer.getD tau 0 < threshold)

/-- The local-minimum walk after a threshold crossing (the inner while loop of
`absoluteThreshold`); the fuel bounds the strictly increasing `tau < maxTau`. -/
def localMinWalk (yinBuffer : List ℚ) (maxTau tau fuel : ℕ) : ℕ :=
  match fuel with
  | 0 => tau
  | fuel + 1 =>
      if tau + 1 < maxTau ∧ yinBuffer.getD (tau + 1) 0 < yinBuffer.getD tau 0 then
        localMinWalk yinBuffer maxTau (tau + 1) fuel
      else tau

/-- Embedding of `YinDetector.absoluteThreshold` from the library `yinDetector.ts`: threshold
search with local-minimum walk, falling back to the global minimum of the range,
accepted only when below `2 × threshold`; `none` models the `-1` sentinel. -/
def absoluteThreshold (yinBuffer : List ℚ) (threshold : ℚ) (minTau maxTau : ℕ) :
    Option ℕ :=
  match firstBelowThreshold yinBuffer threshold minTau maxTau with
  | some tau => some (localMinWalk yinBuffer maxTau tau maxTau)
  | none =>
      let fallback := (List.range' (minTau + 1) (maxTau - (minTau + 1))).foldl
        (fun (acc : ℕ × ℚ) tau =>
          if yinBuffer.getD tau 0 < acc.2 then (tau, yinBuffer.getD tau 0) else acc)
        (minTau, yinBuffer.getD minTau 0)
      if fallback.2 < threshold * 2 then some fallback.1 else none

/-- The tau search inlined in the worklet's `YinDetector.detect`
(`pitch-detector.worklet.ts`): identical scan and walk, but with NO
global-minimum fallback - when nothing is below the threshold it yields the
`-1` sentinel directly. -/
def workletFindTau (yinBuffer : List ℚ) (threshold : ℚ) (minTau maxTau : ℕ) :
    Option ℕ :=
  match firstBelowThreshold yinBuffer threshold minTau maxTau with
  | some tau => some (localMinWalk yinBuffer maxTau tau maxTau)
  | none => none

/-- Embedding of `YinDetector.parabolicInterpolation`; a zero denominator models the
non-finite-adjustment case, in which the integer tau is kept. -/
def parabolicInterpolation (yinBuffer : List ℚ) (tau : ℕ) : ℚ :=
  if tau = 0 ∨ tau ≥ yinBuffer.length - 1 then (tau : ℚ)
  else
    let s0 := yinBuffer.getD (tau - 1) 0
    let s1 := yinBuffer.getD tau 0
    let s2 := yinBuffer.getD (tau + 1) 0
    let denom := 2 * (2 * s1 - s2 - s0)
    if denom = 0 then (tau : ℚ) else (tau : ℚ) + (s2 - s0) / denom

/-- Embedding of `YinResult` from `yinDetector.ts`. -/
structure YinResult where
  frequency : Option ℚ
  clarity : ℚ
  deriving DecidableEq, Repr

/-- Tail of the library `YinDetector.detect` after the CMND buffer has been
computed: tau selection, parabolic refinement, frequency and clarity. -/
def detectFromCmnd (sampleRate threshold : ℚ) (minTau maxTau : ℕ)
    (cmnd : List ℚ) : YinResult :=
  match absoluteThreshold cmnd threshold minTau maxTau with
  | none => ⟨none, 0⟩
  | some tau =>
      let betterTau := parabolicInterpolation cmnd tau
      ⟨some (sampleRate / betterTau), 1 - cmnd.getD tau 0⟩

/-- Tail of the worklet's inlined `detect` after the CMND buffer has been
computed; only the tau search differs from the library version. -/
def workletDetectFromCmnd (sampleRate threshold : ℚ) (minTau maxTau : ℕ)
    (cmnd : List ℚ) : YinResult :=
  match workletFindTau cmnd threshold minTau maxTau with
  | none => ⟨none, 0⟩
  | some tau =>
      let betterTau := parabolicInterpolation cmnd tau
      ⟨some (sampleRate / betterTau), 1 - cmnd.getD tau 0⟩

/-- Embedding of `minTau` as computed in both `YinDetector` constructors. -/
def yinMinTau (sampleRate maxFrequency : ℚ) : ℕ := (⌊sampleRate / maxFrequency⌋).toNat

/-- Embedding of `maxTau` as computed in both `YinDetector` constructors. -/
def yinMaxTau (halfSize : ℕ) (sampleRate minFrequency : ℚ) : ℕ :=
  min (halfSize - 1) (⌊sampleRate / minFrequency⌋).toNat

/-- C5: on a CMND window (sample rate 3000, half size 8, so the scanned lags are
`[2, 7)`) where no lag is below the default threshold 0.15 but the global minimum
0.2 at lag 4 is below `2 × 0.15`, the library detector accepts the fallback and
returns `frequencyHz = 3000 / 4 = 750`, while the worklet's inlined detector -
which its own header requires to stay in sync with the library - reports no pitch
(`frequency = none`, `clarity = 0`). -/
theorem C5_yin_fallback_divergence :
    yinMinTau 3000 1500 = 2 ∧
    yinMaxTau 8 3000 60 = 7 ∧
    (∀ tau ∈ List.range' 2 5,
      ¬ ([1, 9/10, 1/2, 2/5, 1/5, 2/5, 9/10, 9/10] : List ℚ).getD tau 0 < 3/20) ∧
    (([1, 9/10, 1/2, 2/5, 1/5, 2/5, 9/10, 9/10] : List ℚ).getD 4 0 = 1/5 ∧
      (1/5 : ℚ) < (3/20) * 2) ∧
    detectFromCmnd 3000 (3/20) 2 7 [1, 9/10, 1/2, 2/5, 1/5, 2/5, 9/10, 9/10] =
      ⟨some 750, 4/5⟩ ∧
    workletDetectFromCmnd 3000 (3/20) 2 7 [1, 9/10, 1/2, 2/5, 1/5, 2/5, 9/10, 9/10] =
      ⟨none, 0⟩ := by
  have hfirst : firstBelowThreshold [1, 9/10, 1/2, 2/5, 1/5, 2/5, 9/10, 9/10] (3/20) 2 7 =
      none := by
    norm_num [firstBelowThreshold, List.find?, List.getD, List.range']
  refine ⟨?_, ?_, ?_, ⟨by norm_num [List.getD], by norm_num⟩, ?_, ?_⟩
  · norm_num [yinMinTau]
    rfl
  · norm_num [yinMaxTau]
  · intro tau htau
    fin_cases htau <;> norm_num [List.getD]
  · rw [detectFromCmnd, absoluteThreshold, hfirst]
    norm_num [List.range', List.getD, parabolicInterpolation]
  · rw [workletDetectFromCmnd, workletFindTau, hfirst]

/-- Embedding of `PitchDetectionResult` from `types/index.ts`. -/
structure PitchDetectionResult where
  timestampSec : ℚ
  frequency : Option ℚ
  midi : Option ℤ
  clarity : ℚ
  rmsDb : ℚ
  deriving DecidableEq, Repr

/-- The newest-to-oldest scan of `pickPitchAfterOnset`, expressed on the reversed
history: break below the onset time, skip samples beyond the 0.25 s lookahead,
without a midi, or below clarity 0.6, else take the sample. -/
def pickPitchAfterOnsetGo (onsetTimestampSec : ℚ) :
    List PitchDetectionResult → Option PitchDetectionResult
  | [] => none
  | pitch :: rest =>
      if pitch.timestampSec < onsetTimestampSec then none
      else if pitch.timestampSec - onsetTimestampSec > 1/4 then
        pickPitchAfterOnsetGo onsetTimestampSec rest
      else if pitch.midi = none then pickPitchAfterOnsetGo onsetTimestampSec rest
      else if pitch.clarity < 3/5 then pickPitchAfterOnsetGo onsetTimestampSec rest
      else some pitch

/-- Embedding of `pickPitchAfterOnset` from `gameEngine/onsetIntake.ts` (`MAX_LOOKAHEAD_SEC`
0.25, `MIN_TRUSTED_CLARITY` 0.6), iterating the time-ordered history newest to
oldest. -/
def pickPitchAfterOnset (onsetTimestampSec : ℚ)
    (recentPitches : List PitchDetectionResult) : Option PitchDetectionResult :=
  pickPitchAfterOnsetGo onsetTimestampSec recentPitches.reverse

/-- Embedding of `resolveDetectedMidi` from `gameEngine/onsetIntake.ts`. -/
def resolveDetectedMidi (onset : OnsetEvent) (currentPitch : Option PitchDetectionResult)
    (recentPitches : List PitchDetectionResult) : Option ℤ :=
  match pickPitchAfterOnset onset.timestampSec recentPitches with
  | some bestPitch => bestPitch.midi
  | none =>
      if onset.midi ≠ none ∧ onset.clarity ≥ 3/5 then onset.midi
      else
        match currentPitch with
        | some cp =>
            if cp.midi ≠ none ∧ cp.timestampSec ≥ onset.timestampSec then cp.midi else none
        | none => none

/-- Age of the newest pitch sample relative to an onset, `0` when the history is
empty, as computed in `drainDetectedOnsets`. -/
def newestPitchAge (recentPitches : List PitchDetectionResult) (onset : OnsetEvent) : ℚ :=
  match recentPitches.getLast? with
  | some p => p.timestampSec - onset.timestampSec
  | none => 0

/-- The defer test of `drainDetectedOnsets` (`MAX_WAIT_SEC` 0.3): an onset stays
queued when no midi could be resolved and the newest sample is younger than the
wait window. -/
def deferOnset (currentPitch : Option PitchDetectionResult)
    (recentPitches : List PitchDetectionResult) (onset : OnsetEvent) : Bool :=
  decide (resolveDetectedMidi onset currentPitch recentPitches = none ∧
    0 ≤ newestPitchAge recentPitches onset ∧ newestPitchAge recentPitches onset < 3/10)

/-- The queue after the bounding splice in `drainDetectedOnsets`: pending plus
freshly drained onsets, keeping only the newest 50. -/
def drainQueue (pendingOnsets newOnsets : List OnsetEvent) : List OnsetEvent :=
  let combined := pendingOnsets ++ newOnsets
  if combined.length > 50 then combined.drop (combined.length - 50) else combined

/-- The `DetectedOnset` built for a non-deferred onset, including the
calibrated-latency song-time conversion. -/
def resolveOnset (currentPitch : Option PitchDetectionResult)
    (recentPitches : List PitchDetectionResult)
    (playStartTimeSec speed inputOffsetSec : ℚ) (onset : OnsetEvent) : DetectedOnset :=
  ⟨resolveDetectedMidi onset currentPitch recentPitches,
    getSongTimeSec (onset.timestampSec - inputOffsetSec) playStartTimeSec speed, onset⟩

/-- The per-onset loop body of `drainDetectedOnsets`; the accumulator is
(detected, remaining, lastOnset), and the last-onset ref is set for every onset. -/
def drainStep (currentPitch : Option PitchDetectionResult)
    (recentPitches : List PitchDetectionResult)
    (playStartTimeSec speed inputOffsetSec : ℚ)
    (acc : List DetectedOnset × List OnsetEvent × Option OnsetEvent)
    (onset : OnsetEvent) : List DetectedOnset × List OnsetEvent × Option OnsetEvent :=
  if deferOnset currentPitch recentPitches onset then
    (acc.1, acc.2.1 ++ [onset], some onset)
  else
    (acc.1 ++
        [resolveOnset currentPitch recentPitches playStartTimeSec speed inputOffsetSec onset],
      acc.2.1, some onset)

/-- Embedding of `drainDetectedOnsets` from `gameEngine/onsetIntake.ts`, purified: returns the
emitted `DetectedOnset`s, the onsets still queued, and the updated last-onset. -/
def drainDetectedOnsets (pendingOnsets newOnsets : List OnsetEvent)
    (currentPitch : Option PitchDetectionResult)
    (recentPitches : List PitchDetectionResult)
    (playStartTimeSec speed inputOffsetSec : ℚ) (lastOnset0 : Option OnsetEvent) :
    List DetectedOnset × List OnsetEvent × Option OnsetEvent :=
  let queue := drainQueue pendingOnsets newOnsets
  queue.foldl (drainStep currentPitch recentPitches playStartTimeSec speed inputOffsetSec)
    ([], [], lastOnset0)

/-- A pitch sample trusted for an onset, in the spec's words: at or after the
onset, within the 0.25 s lookahead, with a midi, with clarity at least 0.6. -/
def trustedFor (t : ℚ) (p : PitchDetectionResult) : Prop :=
  t ≤ p.timestampSec ∧ p.timestampSec - t ≤ 1/4 ∧ p.midi ≠ none ∧ 3/5 ≤ p.clarity

lemma pickGo_none_iff (t : ℚ) (l : List PitchDetectionResult)
    (hsorted : l.Pairwise fun a b => b.timestampSec ≤ a.timestampSec) :
    (pickPitchAfterOnsetGo t l = none ↔ ∀ p ∈ l, ¬ trustedFor t p) := by
  induction l with
  | nil => simp [pickPitchAfterOnsetGo]
  | cons hd tl ih =>
      have htl := ih (List.Pairwise.sublist (List.sublist_cons_self hd tl) hsorted)
      have hhd := (List.pairwise_cons.mp hsorted).1
      rw [pickPitchAfterOnsetGo]
      by_cases h1 : hd.timestampSec < t
      · rw [if_pos h1]
        simp only [List.mem_cons, true_iff]
        rintro p (rfl | hp)
        · exact fun hq => absurd hq.1 (not_le.mpr h1)
        · exact fun hq => absurd hq.1 (not_le.mpr (lt_of_le_of_lt (hhd p hp) h1))
      · rw [if_neg h1]
        by_cases h2 : hd.timestampSec - t > 1/4
        · rw [if_pos h2]
          rw [htl]
          constructor
          · intro h p hp
            rcases List.mem_cons.mp hp with rfl | hp
            · exact fun hq => absurd hq.2.1 (not_le.mpr h2)
            · exact h p hp
          · intro h p hp
            exact h p (List.mem_cons_of_mem hd hp)
        · rw [if_neg h2]
          by_cases h3 : hd.midi = none
          · rw [if_pos h3]
            rw [htl]
            constructor
            · intro h p hp
              rcases List.mem_cons.mp hp with rfl | hp
              · exact fun hq => absurd h3 hq.2.2.1
              · exact h p hp
            · intro h p hp
              exact h p (List.mem_cons_of_mem hd hp)
          · rw [if_neg h3]
            by_cases h4 : hd.clarity < 3/5
            · rw [if_pos h4]
              rw [htl]
              constructor
              · intro h p hp
                rcases List.mem_cons.mp hp with rfl | hp
                · exact fun hq => absurd hq.2.2.2 (not_le.mpr h4)
                · exact h p hp
              · intro h p hp
                exact h p (List.mem_cons_of_mem hd hp)
            · rw [if_neg h4]
              simp only [List.mem_cons]
              constructor
              · intro h; exact absurd h (by simp)
              · intro h
                exact absurd ⟨not_lt.mp h1, not_lt.mp h2, h3, not_lt.mp h4⟩
                  (h hd (Or.inl rfl))

lemma pickPitchAfterOnset_none_iff (t : ℚ) (rp : List PitchDetectionResult)
    (hsorted : rp.Pairwise fun a b => a.timestampSec ≤ b.timestampSec) :
    (pickPitchAfterOnset t rp = none ↔ ∀ p ∈ rp, ¬ trustedFor t p) := by
  rw [pickPitchAfterOnset,
    pickGo_none_iff t rp.reverse (List.pairwise_reverse.mpr hsorted)]
  simp

lemma drain_fold_remaining (cp : Option PitchDetectionResult)
    (rp : List PitchDetectionResult) (ps sp off : ℚ) :
    ∀ (l : List OnsetEvent) (d : List DetectedOnset) (r : List OnsetEvent)
      (lo : Option OnsetEvent),
      (l.foldl (drainStep cp rp ps sp off) (d, r, lo)).2.1 = r ++ l.filter (deferOnset cp rp) := by
  intro l
  induction l with
  | nil => intro d r lo; simp
  | cons hd tl ih =>
      intro d r lo
      rw [List.foldl_cons, drainStep]
      by_cases h : deferOnset cp rp hd
      · rw [if_pos h, ih, List.filter_cons_of_pos h]
        simp
      · rw [if_neg h, ih, List.filter_cons_of_neg (by simpa using h)]

lemma drain_fold_detected (cp : Option PitchDetectionResult)
    (rp : List PitchDetectionResult) (ps sp off : ℚ) :
    ∀ (l : List OnsetEvent) (d : List DetectedOnset) (r : List OnsetEvent)
      (lo : Option OnsetEvent),
      (l.foldl (drainStep cp rp ps sp off) (d, r, lo)).1 =
        d ++ (l.filter fun o => !(deferOnset cp rp o)).map (resolveOnset cp rp ps sp off) := by
  intro l
  induction l with
  | nil => intro d r lo; simp
  | cons hd tl ih =>
      intro d r lo
      rw [List.foldl_cons, drainStep]
      by_cases h : deferOnset cp rp hd
      · rw [if_pos h, ih, List.filter_cons_of_neg (by simpa using h)]
      · rw [if_neg h, ih, List.filter_cons_of_pos (by simpa using h)]
        simp

/-- C9 counterexample: an onset with a confident embedded midi (clarity 0.9) has no
trusted post-onset sample and the newest sample is only 0.1 s after the onset, yet
the intake does NOT keep it queued: the embedded-midi fallback is applied on the
same pass and the onset is emitted immediately with `midi = some 60`. -/
theorem C9_counterexample :
    pickPitchAfterOnset 10 [⟨101/10, none, none, 1/5, -30⟩] = none ∧
    (0 : ℚ) ≤ newestPitchAge [⟨101/10, none, none, 1/5, -30⟩] ⟨10, 0, some 60, 9/10⟩ ∧
    newestPitchAge [⟨101/10, none, none, 1/5, -30⟩] ⟨10, 0, some 60, 9/10⟩ < 3/10 ∧
    (drainDetectedOnsets [⟨10, 0, some 60, 9/10⟩] [] none
        [⟨101/10, none, none, 1/5, -30⟩] 0 1 0 none).2.1 = [] ∧
    (drainDetectedOnsets [⟨10, 0, some 60, 9/10⟩] [] none
        [⟨101/10, none, none, 1/5, -30⟩] 0 1 0 none).1 =
      [⟨some 60, 10, ⟨10, 0, some 60, 9/10⟩⟩] := by
  have hpick : pickPitchAfterOnset 10 [⟨101/10, none, none, 1/5, -30⟩] = none := by
    norm_num [pickPitchAfterOnset, pickPitchAfterOnsetGo, List.reverse]
  have hres : resolveDetectedMidi ⟨10, 0, some 60, 9/10⟩ none
      [⟨101/10, none, none, 1/5, -30⟩] = some 60 := by
    rw [resolveDetectedMidi, hpick]
    exact if_pos ⟨by simp, by norm_num⟩
  have hdefer : deferOnset none [⟨101/10, none, none, 1/5, -30⟩] ⟨10, 0, some 60, 9/10⟩ =
      false := by
    simp only [deferOnset, decide_eq_false_iff_not]
    rintro ⟨h, -⟩
    rw [hres] at h
    exact Option.some_ne_none _ h
  have hqueue : drainQueue [⟨10, 0, some 60, 9/10⟩] [] = [⟨10, 0, some 60, 9/10⟩] := rfl
  refine ⟨hpick, by norm_num [newestPitchAge], by norm_num [newestPitchAge], ?_, ?_⟩
  · simp only [drainDetectedOnsets, drain_fold_remaining, List.nil_append, hqueue]
    rw [List.filter_cons_of_neg (by rw [hdefer]; exact Bool.false_ne_true), List.filter_nil]
  · simp only [drainDetectedOnsets, drain_fold_detected, List.nil_append, hqueue]
    rw [List.filter_cons_of_pos (by rw [hdefer]; rfl), List.filter_nil, List.map_cons,
      List.map_nil]
    simp only [resolveOnset, getSongTimeSec, hres, List.cons.injEq, and_true]
    norm_num

/-- C9 (amended): the resolver applies its ordered fallbacks on every intake pass:
a trusted post-onset pitch sample wins; else the onset's own embedded midi when its
clarity is at least 0.6; else the current pitch sample when it has a midi and lies
at or after the onset; else no midi. An onset is deferred (kept queued) exactly
when all fallbacks yield no midi and the newest pitch sample is younger than 0.3 s
relative to the onset (or the history is empty); otherwise it is emitted with the
resolved midi - in particular, once the wait window has elapsed an unresolvable
onset is emitted with `midi = none`. -/
theorem C9_onset_intake_amended :
    (∀ (t : ℚ) (rp : List PitchDetectionResult),
      rp.Pairwise (fun a b => a.timestampSec ≤ b.timestampSec) →
      (pickPitchAfterOnset t rp = none ↔ ∀ p ∈ rp, ¬ trustedFor t p)) ∧
    (∀ (onset : OnsetEvent) (cp : Option PitchDetectionResult)
        (rp : List PitchDetectionResult) (p : PitchDetectionResult),
      pickPitchAfterOnset onset.timestampSec rp = some p →
      resolveDetectedMidi onset cp rp = p.midi) ∧
    (∀ (onset : OnsetEvent) (cp : Option PitchDetectionResult)
        (rp : List PitchDetectionResult),
      pickPitchAfterOnset onset.timestampSec rp = none →
      onset.midi ≠ none → onset.clarity ≥ 3/5 →
      resolveDetectedMidi onset cp rp = onset.midi) ∧
    (∀ (onset : OnsetEvent) (c : PitchDetectionResult) (rp : List PitchDetectionResult),
      pickPitchAfterOnset onset.timestampSec rp = none →
      ¬(onset.midi ≠ none ∧ onset.clarity ≥ 3/5) →
      c.midi ≠ none → c.timestampSec ≥ onset.timestampSec →
      resolveDetectedMidi onset (some c) rp = c.midi) ∧
    (∀ (onset : OnsetEvent) (cp : Option PitchDetectionResult)
        (rp : List PitchDetectionResult),
      pickPitchAfterOnset onset.timestampSec rp = none →
      ¬(onset.midi ≠ none ∧ onset.clarity ≥ 3/5) →
      (∀ c, cp = some c → ¬(c.midi ≠ none ∧ c.timestampSec ≥ onset.timestampSec)) →
      resolveDetectedMidi onset cp rp = none) ∧
    (∀ (pending newOnsets : List OnsetEvent) (cp : Option PitchDetectionResult)
        (rp : List PitchDetectionResult) (ps sp off : ℚ) (lo : Option OnsetEvent),
      (drainDetectedOnsets pending newOnsets cp rp ps sp off lo).2.1 =
        (drainQueue pending newOnsets).filter (deferOnset cp rp) ∧
      (drainDetectedOnsets pending newOnsets cp rp ps sp off lo).1 =
        ((drainQueue pending newOnsets).filter fun o => !(deferOnset cp rp o)).map
          (resolveOnset cp rp ps sp off)) ∧
    (∀ (cp : Option PitchDetectionResult) (rp : List PitchDetectionResult)
        (onset : OnsetEvent),
      deferOnset cp rp onset = true ↔
        (resolveDetectedMidi onset cp rp = none ∧ 0 ≤ newestPitchAge rp onset ∧
          newestPitchAge rp onset < 3/10)) := by
  refine ⟨?_, ?_, ?_, ?_, ?_, ?_, ?_⟩
  · exact pickPitchAfterOnset_none_iff
  · intro onset cp rp p h
    rw [resolveDetectedMidi.eq_def, h]
  · intro onset cp rp h h1 h2
    rw [resolveDetectedMidi.eq_def, h]
    exact if_pos ⟨h1, h2⟩
  · intro onset c rp h h1 h2 h3
    rw [resolveDetectedMidi.eq_def, h, if_neg h1]
    exact if_pos ⟨h2, h3⟩
  · intro onset cp rp h h1 h2
    rw [resolveDetectedMidi.eq_def, h, if_neg h1]
    cases cp with
    | none => rfl
    | some c => exact if_neg (h2 c rfl)
  · intro pending newOnsets cp rp ps sp off lo
    constructor
    · rw [drainDetectedOnsets, drain_fold_remaining, List.nil_append]
    · rw [drainDetectedOnsets, drain_fold_detected, List.nil_append]
  · intro cp rp onset
    simp [deferOnset]

/-- C9 witness: the trusted-sample characterization and the drain equations
evaluated at a one-sample history and a one-onset queue. -/
theorem C9_onset_intake_amended_witness :
    (([⟨51/10, none, some 60, 7/10, -20⟩] : List PitchDetectionResult).Pairwise
        (fun a b => a.timestampSec ≤ b.timestampSec)) ∧
    (pickPitchAfterOnset 5 [⟨51/10, none, some 60, 7/10, -20⟩] = none ↔
      ∀ p ∈ ([⟨51/10, none, some 60, 7/10, -20⟩] : List PitchDetectionResult),
        ¬ trustedFor 5 p) ∧
    (drainDetectedOnsets [⟨5, 0, none, 0⟩] [] none [⟨51/10, none, some 60, 7/10, -20⟩]
        0 1 0 none).2.1 =
      (drainQueue [⟨5, 0, none, 0⟩] []).filter
        (deferOnset none [⟨51/10, none, some 60, 7/10, -20⟩]) :=
  ⟨by simp,
    C9_onset_intake_amended.1 5 [⟨51/10, none, some 60, 7/10, -20⟩] (by simp),
    (C9_onset_intake_amended.2.2.2.2.2.1 [⟨5, 0, none, 0⟩] [] none
      [⟨51/10, none, some 60, 7/10, -20⟩] 0 1 0 none).1⟩

/-- State of the `RingBuffer` class duplicated in `pitch-detector.worklet.ts` and
`ringBuffer.ts`; the zero-initialized backing `Float32Array` of length
`2 × windowSize` is modelled as a list of rationals. -/
structure RingBufferState where
  buffer : List ℚ
  writeIndex : ℕ
  samplesWritten : ℕ
  lastAnalysisIndex : ℕ
  deriving DecidableEq, Repr

/-- The `RingBuffer` constructor state: a zero-filled buffer of twice the window
size, all counters zero. -/
def RingBuffer.init (windowSize : ℕ) : RingBufferState :=
  ⟨List.replicate (windowSize * 2) 0, 0, 0, 0⟩

/-- One iteration of the `write` loop: store a sample at the write index and
advance it modulo the buffer length. -/
def RingBuffer.writeOne (st : RingBufferState) (x : ℚ) : RingBufferState :=
  { st with
      buffer := st.buffer.set st.writeIndex x
      writeIndex := (st.writeIndex + 1) % st.buffer.length
      samplesWritten := st.samplesWritten + 1 }

/-- Embedding of `RingBuffer.write`. -/
def RingBuffer.write (st : RingBufferState) (samples : List ℚ) : RingBufferState :=
  samples.foldl RingBuffer.writeOne st

/-- Embedding of `RingBuffer.isFrameReady`: at least `hopSize` new samples since the last
extraction. -/
def RingBuffer.isFrameReady (hopSize : ℕ) (st : RingBufferState) : Bool :=
  decide (st.samplesWritten - st.lastAnalysisIndex ≥ hopSize)

/-- The index read by the i-th iteration of the `getFrame` copy loop:
`(writeIndex - windowSize + buffer.length) % buffer.length`, advanced `i`
positions, each reduction taken modulo the buffer length. -/
def RingBuffer.frameIndex (st : RingBufferState) (windowSize i : ℕ) : ℕ :=
  (st.writeIndex + st.buffer.length - windowSize + i) % st.buffer.length

/-- Embedding of `RingBuffer.getFrame`: copies the most recent `windowSize` samples (wrapping
around the backing buffer) and advances the analysis marker. -/
def RingBuffer.getFrame (st : RingBufferState) (windowSize : ℕ) :
    List ℚ × RingBufferState :=
  ((List.range windowSize).map fun i =>
      st.buffer.getD (RingBuffer.frameIndex st windowSize i) 0,
    { st with lastAnalysisIndex := st.samplesWritten })

lemma set_append_replicate (p : List ℚ) (x : ℚ) (k : ℕ) (hk : 1 ≤ k) :
    (p ++ List.replicate k 0).set p.length x = (p ++ [x]) ++ List.replicate (k - 1) 0 := by
  induction p with
  | nil =>
      cases k with
      | zero => omega
      | succ m => simp [List.replicate_succ]
  | cons a p ih => simpa using ih

lemma write_fill (xs : List ℚ) :
    ∀ (p : List ℚ) (L s a : ℕ), p.length + xs.length < L →
      RingBuffer.write ⟨p ++ List.replicate (L - p.length) 0, p.length, s, a⟩ xs =
        ⟨(p ++ xs) ++ List.replicate (L - (p.length + xs.length)) 0,
          p.length + xs.length, s + xs.length, a⟩ := by
  induction xs with
  | nil =>
      intro p L s a h
      simp [RingBuffer.write]
  | cons x rest ih =>
      intro p L s a h
      have hplen : p.length + 1 < L := by
        have := h
        simp only [List.length_cons] at this
        omega
      have hlen : (p ++ List.replicate (L - p.length) 0).length = L := by
        simp only [List.length_append, List.length_replicate]
        omega
      have hwo : RingBuffer.writeOne ⟨p ++ List.replicate (L - p.length) 0, p.length, s, a⟩ x =
          ⟨(p ++ [x]) ++ List.replicate (L - (p.length + 1)) 0, p.length + 1, s + 1, a⟩ := by
        rw [RingBuffer.writeOne]
        simp only [hlen]
        rw [set_append_replicate p x (L - p.length) (by omega)]
        rw [Nat.mod_eq_of_lt hplen, Nat.sub_sub]
      rw [RingBuffer.write, List.foldl_cons, hwo]
      have hrest := ih (p ++ [x]) L (s + 1) a
        (by
          simp only [List.length_append, List.length_cons, List.length_nil] at h ⊢
          omega)
      rw [RingBuffer.write] at hrest
      simp only [List.length_append, List.length_cons, List.length_nil] at hrest
      rw [hrest]
      have hL1 : p.length + 1 + rest.length = p.length + (x :: rest).length := by
        simp only [List.length_cons]
        omega
      have hL2 : s + 1 + rest.length = s + (x :: rest).length := by
        simp only [List.length_cons]
        omega
      rw [RingBufferState.mk.injEq]
      refine ⟨?_, hL1, hL2, rfl⟩
      simp only [List.append_assoc, List.singleton_append, List.cons_append,
        List.nil_append, hL1]

lemma getD_append_replicate_zero (xs : List ℚ) (m k : ℕ) (hk : xs.length ≤ k) :
    (xs ++ List.replicate m 0).getD k 0 = 0 := by
  rw [List.getD_eq_getElem?_getD, List.getElem?_append_right hk]
  rcases lt_or_le (k - xs.length) m with h | h
  · simp [List.getElem?_replicate, h]
  · rw [List.getElem?_eq_none (by simpa using h)]
    rfl

lemma frame_early_content (W : ℕ) (xs : List ℚ) (hW : 0 < W) (hn : xs.length ≤ W) :
    (RingBuffer.getFrame ⟨xs ++ List.replicate (W * 2 - xs.length) 0, xs.length,
        xs.length, 0⟩ W).1 = List.replicate (W - xs.length) 0 ++ xs := by
  have hbuflen : (xs ++ List.replicate (W * 2 - xs.length) 0).length = W * 2 := by
    simp only [List.length_append, List.length_replicate]
    omega
  apply List.ext_getElem
  · simp only [RingBuffer.getFrame, List.length_map, List.length_range,
      List.length_append, List.length_replicate]
    omega
  · intro j hj1 hj2
    have hjW : j < W := by
      simpa [RingBuffer.getFrame] using hj1
    simp only [RingBuffer.getFrame, List.getElem_map, List.getElem_range,
      RingBuffer.frameIndex, hbuflen]
    by_cases hcase : j < W - xs.length
    · have hidx : xs.length + W * 2 - W + j = xs.length + W + j := by omega
      have hlt : xs.length + W + j < W * 2 := by omega
      rw [hidx, Nat.mod_eq_of_lt hlt]
      rw [getD_append_replicate_zero xs _ _ (by omega)]
      rw [List.getElem_append_left (by simpa using hcase)]
      simp
    · have hidx : xs.length + W * 2 - W + j = W * 2 + (xs.length + j - W) := by omega
      rw [hidx, Nat.add_mod_left, Nat.mod_eq_of_lt (by omega)]
      have hr : xs.length + j - W < xs.length := by omega
      rw [List.getD_eq_getElem?_getD, List.getElem?_append_left hr,
        List.getElem?_eq_getElem hr]
      rw [List.getElem_append_right (by simpa using not_lt.mp hcase)]
      simp only [Option.getD_some]
      congr 1
      simp only [List.length_replicate]
      omega

/-- C10: every read of `getFrame` is reduced modulo the `2 × windowSize` backing
length, so it never indexes outside the buffer; and once `hopSize` samples have
been written into a fresh buffer - even when fewer than `windowSize` samples have
ever arrived - `isFrameReady` is true and the extracted window is the written
samples preceded by zeros from the zero-initialized buffer. -/
theorem C10_ring_buffer (W hop : ℕ) (xs : List ℚ) (hW : 0 < W) (hn : xs.length ≤ W)
    (hhop : hop ≤ xs.length) :
    (∀ (st : RingBufferState) (windowSize i : ℕ), st.buffer.length ≠ 0 →
      RingBuffer.frameIndex st windowSize i < st.buffer.length) ∧
    RingBuffer.write (RingBuffer.init W) xs =
      ⟨xs ++ List.replicate (W * 2 - xs.length) 0, xs.length, xs.length, 0⟩ ∧
    RingBuffer.isFrameReady hop (RingBuffer.write (RingBuffer.init W) xs) = true ∧
    (RingBuffer.getFrame (RingBuffer.write (RingBuffer.init W) xs) W).1 =
      List.replicate (W - xs.length) 0 ++ xs := by
  have hwrite : RingBuffer.write (RingBuffer.init W) xs =
      ⟨xs ++ List.replicate (W * 2 - xs.length) 0, xs.length, xs.length, 0⟩ := by
    have := write_fill xs [] (W * 2) 0 0 (by simp; omega)
    simpa [RingBuffer.init] using this
  refine ⟨?_, hwrite, ?_, ?_⟩
  · intro st windowSize i hne
    exact Nat.mod_lt _ (Nat.pos_of_ne_zero hne)
  · rw [hwrite, RingBuffer.isFrameReady]
    simp only [decide_eq_true_eq]
    omega
  · rw [hwrite]
    exact frame_early_content W xs hW hn

/-- C10 witness: a window size of 4 with hop 2 and two written samples yields a
ready frame equal to two zeros followed by the samples. -/
theorem C10_ring_buffer_witness :
    (0 < 4 ∧ ([5, 7] : List ℚ).length ≤ 4 ∧ 2 ≤ ([5, 7] : List ℚ).length) ∧
    RingBuffer.isFrameReady 2 (RingBuffer.write (RingBuffer.init 4) [5, 7]) = true ∧
    (RingBuffer.getFrame (RingBuffer.write (RingBuffer.init 4) [5, 7]) 4).1 =
      List.replicate 2 0 ++ [5, 7] :=
  ⟨⟨by decide, by decide, by decide⟩,
    (C10_ring_buffer 4 2 [5, 7] (by decide) (by decide) (by decide)).2.2.1,
    (C10_ring_buffer 4 2 [5, 7] (by decide) (by decide) (by decide)).2.2.2⟩

end GuitarZero
